import Mathlib

/-!
A shallow embedding of the demi_epoll sources: `wrappers/errno.rs`,
`operation.rs`, `wrappers/demi.rs` (the scatter-gather byte iterator),
`socket.rs`, `buffer.rs` (the generational handle slab) and the dpoll layer
(`dpoll/mod.rs`, `dpoll/items.rs`, `dpoll/item.rs`, `dpoll/ready_list.rs`),
together with the ABI mapping of `bindings/mod.rs`.

Conventions used throughout:
* machine integers are `Nat` with explicit `% 2 ^ w` where wrap-around matters
  (the `u8` generation counter, the `u32` handle bit-field);
* a Rust `panic!`, a failed `assert!`, a failed `unwrap()` or a hit
  `unreachable!()` is modelled as `Option.none` ("the call aborts");
* calls into the fast-path engine (`demi::wait`, `demi::wait_any`) and into the
  kernel epoll are external: their outcome for the call under scrutiny is
  passed in as a parameter;
* queue tokens are opaque to the program (they are only collected and handed
  back to `wait_any`), so their values are modelled by a deterministic
  encoding of (socket qd, operation kind).
-/

/-- Model of the `PosixError` enum of `wrappers/errno.rs`.  The enum variants
are in bijection with their numeric errno codes (`#[repr(i32)]`), so the model
identifies a variant with its code. -/
structure PosixError where
  code : Nat
deriving DecidableEq, Repr

def PosixError.WOULDBLOCK : PosixError := ⟨11⟩

def PosixError.INVAL : PosixError := ⟨22⟩

def PosixError.CONNRESET : PosixError := ⟨104⟩

def PosixError.TIMEDOUT : PosixError := ⟨110⟩

/-- Model of the `Event` bitflags of `dpoll/mod.rs` (`EPOLLIN`, `EPOLLOUT`). -/
structure Event where
  evIn : Bool
  evOut : Bool
deriving DecidableEq, Repr

def Event.empty : Event := ⟨false, false⟩

def Event.IN : Event := ⟨true, false⟩

def Event.OUT : Event := ⟨false, true⟩

def Event.all : Event := ⟨true, true⟩

def Event.union (a b : Event) : Event := ⟨a.evIn || b.evIn, a.evOut || b.evOut⟩

def Event.intersection (a b : Event) : Event := ⟨a.evIn && b.evIn, a.evOut && b.evOut⟩

def Event.difference (a b : Event) : Event := ⟨a.evIn && !b.evIn, a.evOut && !b.evOut⟩

def Event.isEmpty (a : Event) : Bool := !a.evIn && !a.evOut

def Event.intersects (a b : Event) : Bool := !(a.intersection b).isEmpty

deriving instance DecidableEq for Except

/-- Model of `Operation<T>` of `operation.rs`: `P` is the submit-side payload
type (`T::Payload`), `T` the completion payload.  `none` is the source's
`Operation::None` (idle) state. -/
inductive Operation (P T : Type) where
  | none
  | running (payload : P) (tok : Nat)
  | completed (res : Except PosixError T)
deriving DecidableEq, Repr

variable {P T : Type}

def Operation.is_finished : Operation P T → Bool
  | .completed _ => true
  | _ => false

def Operation.is_running : Operation P T → Bool
  | .running _ _ => true
  | _ => false

def Operation.is_none : Operation P T → Bool
  | .none => true
  | _ => false

/-- Model of `Operation::start`: asserts the idle state; a failed assert is
`Option.none`. -/
def Operation.start : Operation P T → Nat → P → Option (Operation P T)
  | .none, tok, payload => some (.running payload tok)
  | _, _, _ => Option.none

/-- Model of `Operation::complete`: asserts the running state. -/
def Operation.complete : Operation P T → Except PosixError T → Option (Operation P T)
  | .running _ _, res => some (.completed res)
  | _, _ => Option.none

/-- Model of `Operation::get`: consumes a completed result, resetting the
state to idle; on any other state the source panics. -/
def Operation.get : Operation P T → Option (Except PosixError T × Operation P T)
  | .completed res => some (res, .none)
  | _ => Option.none

/-- Model of the read-only projection of `Operation::get_mut`: on a state
other than `Completed` the source panics. -/
def Operation.get_res : Operation P T → Option (Except PosixError T)
  | .completed res => some res
  | _ => Option.none

/-- Outcome of one `demi::wait(tok, timeout)` call on a running operation:
either a completion payload, a timeout, or a non-timeout engine error. -/
inductive EngWait (T : Type) where
  | ok (v : T)
  | timedout
  | fail (e : PosixError)
deriving DecidableEq, Repr

/-- Model of `Operation::wait`: on a state that is not running it returns at
once; on a running state a completion moves to `completed`, a timeout leaves
the state unchanged, and any other engine error hits `panic!("{}", err)`. -/
def Operation.wait : Operation P T → EngWait T → Option (Operation P T)
  | .running p tok, resp =>
    match resp with
    | .ok v => some (.completed (.ok v))
    | .timedout => some (.running p tok)
    | .fail _ => Option.none
  | op, _ => some op

/-- Model of `Operation::poll`: a zero-timeout wait followed by
`is_none || is_finished`. -/
def Operation.poll (op : Operation P T) (resp : EngWait T) : Option (Bool × Operation P T) :=
  (op.wait resp).map (fun o => (o.is_none || o.is_finished, o))

/-- Scatter-gather buffer contents (`demi::SgArray`): the byte contents of its
segments. -/
abbrev SgArray := List (List Nat)

/-- Model of `SgArrayByteIter` of `wrappers/demi.rs`: a cursor (segment
offset, byte offset) into a scatter-gather buffer. -/
structure SgArrayByteIter where
  segs : SgArray
  segOff : Nat
  byteOff : Nat
deriving DecidableEq, Repr

/-- Model of `SgArrayByteIter::is_empty` (`seg_off > segs.len() - 1`; the
source guarantees at least one segment, for which this is `len ≤ seg_off`). -/
def SgArrayByteIter.isEmpty (it : SgArrayByteIter) : Bool :=
  decide (it.segs.length ≤ it.segOff)

/-- The copy loop of `SgArrayByteIter::copy_bytes`: copies up to `remaining`
bytes starting at cursor (`segOff`, `byteOff`), returning the copied bytes and
the final cursor. -/
def copyLoop (segs : List (List Nat)) (segOff byteOff remaining : Nat) :
    List Nat × Nat × Nat :=
  if h : remaining = 0 ∨ segs.length ≤ segOff then ([], segOff, byteOff)
  else
    if h2 : (segs.getD segOff []).length - byteOff = 0 then
      copyLoop segs (segOff + 1) 0 remaining
    else
      let copyLen := min ((segs.getD segOff []).length - byteOff) remaining
      let chunk := ((segs.getD segOff []).drop byteOff).take copyLen
      if (segs.getD segOff []).length ≤ byteOff + copyLen then
        let r := copyLoop segs (segOff + 1) 0
          (remaining - min ((segs.getD segOff []).length - byteOff) remaining)
        (chunk ++ r.1, r.2.1, r.2.2)
      else
        let r := copyLoop segs segOff
          (byteOff + min ((segs.getD segOff []).length - byteOff) remaining)
          (remaining - min ((segs.getD segOff []).length - byteOff) remaining)
        (chunk ++ r.1, r.2.1, r.2.2)
termination_by segs.length - segOff + remaining
decreasing_by
  all_goals simp only [not_or] at h
  all_goals omega

/-- Model of `SgArrayByteIter::copy_bytes` into a destination of length
`dstLen`: returns the copied bytes and the advanced iterator.  The source
returns `None` when the iterator is already empty at entry; the caller
(`read_impl`) recovers that case by testing `isEmpty` at entry. -/
def SgArrayByteIter.copyBytes (it : SgArrayByteIter) (dstLen : Nat) :
    List Nat × SgArrayByteIter :=
  if it.isEmpty then ([], it)
  else
    let r := copyLoop it.segs it.segOff it.byteOff dstLen
    (r.1, { it with segOff := r.2.1, byteOff := r.2.2 })

/-- Model of `SgArray::into_iter`. -/
def SgArray.intoIter (sga : SgArray) : SgArrayByteIter := ⟨sga, 0, 0⟩

/-- Model of `demi::AcceptResult`. -/
structure AcceptResult where
  qd : Nat
  addr : Nat
deriving DecidableEq, Repr

/-- Model of `SocketData` of `socket.rs`. -/
inductive SocketData where
  | passive (accept : Operation Unit AcceptResult)
  | active (write : Operation SgArray Unit) (read : Operation Unit SgArrayByteIter)
deriving DecidableEq, Repr

/-- Model of `Socket` of `socket.rs`.  `openFlag` is the source's `open`
field (renamed: `open` is a Lean keyword). -/
structure Socket where
  soc : Nat
  addr : Option Nat
  openFlag : Bool
  data : SocketData
deriving DecidableEq, Repr

/-- Deterministic stand-in for the queue token returned by `demi_accept`. -/
def acceptTok (qd : Nat) : Nat := 3 * qd

/-- Deterministic stand-in for the queue token returned by `demi_pop`. -/
def popTok (qd : Nat) : Nat := 3 * qd + 1

/-- Deterministic stand-in for the queue token returned by `demi_push`. -/
def pushTok (qd : Nat) : Nat := 3 * qd + 2

/-- Model of `Socket::available_events`. -/
def Socket.available_events (s : Socket) (evs : Event) : Event :=
  let other :=
    match s.data with
    | .passive accept => if accept.is_finished then Event.IN else Event.empty
    | .active write read =>
      let w := if !write.is_running then Event.OUT else Event.empty
      let r := if read.is_finished then Event.IN else Event.empty
      w.union r
  evs.intersection other

/-- Model of `Socket::schedule_events`: ensures operations are in flight for
the requested directions and collects their queue tokens.  The
`unreachable!()` arms of the source are `Option.none`. -/
def Socket.schedule_events (s : Socket) (evs : Event) : Option (Socket × List Nat) :=
  match s.data with
  | .passive accept =>
    if evs.intersects Event.IN then
      match accept with
      | .none => some ({ s with data := .passive (.running () (acceptTok s.soc)) },
                       [acceptTok s.soc])
      | .running p tok => some ({ s with data := .passive (.running p tok) }, [tok])
      | .completed _ => Option.none
    else some (s, [])
  | .active write read =>
    let readStep : Option (Operation Unit SgArrayByteIter × List Nat) :=
      if evs.intersects Event.IN then
        match read with
        | .running p tok => some (.running p tok, [tok])
        | .none => some (.running () (popTok s.soc), [popTok s.soc])
        | .completed _ => Option.none
      else some (read, [])
    match readStep with
    | Option.none => Option.none
    | some (read1, toks1) =>
      match write with
      | .running p tok => some ({ s with data := .active (.running p tok) read1 },
                                toks1 ++ [tok])
      | w =>
        if evs.intersects Event.OUT then Option.none
        else some ({ s with data := .active w read1 }, toks1)

/-- Model of `QResultValue` of `wrappers/demi.rs`. -/
inductive QResultValue where
  | push
  | pop (sga : SgArray)
  | accept (res : AcceptResult)
deriving DecidableEq, Repr

/-- Model of `Socket::process_event`: drives the matching in-flight operation
to `completed`; a mismatched completion kind panics. -/
def Socket.process_event (s : Socket) (val : QResultValue) : Option Socket :=
  match s.data, val with
  | .passive accept, .accept acc =>
    (accept.complete (.ok acc)).map (fun a => { s with data := .passive a })
  | .passive _, _ => Option.none
  | .active write read, .push =>
    (write.complete (.ok ())).map (fun w => { s with data := .active w read })
  | .active write read, .pop sga =>
    (read.complete (.ok sga.intoIter)).map (fun r => { s with data := .active write r })
  | .active _ _, .accept _ => Option.none

/-- Outcome of one `Socket::read`/`Socket::read_impl` call. -/
inductive ReadResult where
  | bytes (copied : List Nat) (s : Socket)
  | wouldblock (s : Socket)
  | errno (e : PosixError) (s : Socket)
  | abort
deriving DecidableEq, Repr

/-- Model of `Socket::read_impl`, instantiated (as in `Socket::read`) with
`copy_bytes` into a destination of length `dstLen`.  `resp` is the outcome the
engine would give a zero-timeout `demi::wait` on the in-flight pop, if one is
polled. -/
def Socket.read_impl (s : Socket) (resp : EngWait SgArrayByteIter) (dstLen : Nat) :
    ReadResult :=
  match s.data with
  | .passive _ => .errno PosixError.INVAL s
  | .active write read =>
    match read.poll resp with
    | Option.none => .abort
    | some (pollRes, read1) =>
      if !pollRes then
        match read1.start (popTok s.soc) () with
        | Option.none => .abort
        | some read2 => .wouldblock { s with data := .active write read2 }
      else
        match read1.get_res with
        | Option.none => .abort
        | some (.error _) => .abort
        | some (.ok iter) =>
          let r := iter.copyBytes dstLen
          let lenOpt : Option Nat :=
            if iter.isEmpty then Option.none else some r.1.length
          let sFin : Socket :=
            if r.2.isEmpty then
              { s with data := .active write (.running () (popTok s.soc)) }
            else
              { s with data := .active write (.completed (.ok r.2)) }
          match lenOpt with
          | some _ => .bytes r.1 sFin
          | Option.none => .wouldblock sFin

/-- C1: the claim states that `read` on an Idle read operation submits a pop
and returns WOULDBLOCK, that `read` on a Running read operation whose poll
finds no completion returns WOULDBLOCK, and that in no case the call aborts.
On the code, `read_impl` first calls `Operation::poll`, which returns `true`
for the Idle state (`is_none`), so the Idle case falls through to
`Operation::get_mut`, which panics on a non-completed state; and in the
Running-without-completion case `read_impl` calls `Operation::start` on the
still-running operation, whose `assert!(matches!(self, Operation::None))`
fails.  Both calls abort instead of returning WOULDBLOCK. -/
theorem read_impl_aborts_on_idle_and_running :
    (Socket.read_impl ⟨1, Option.none, true, .active .none .none⟩ .timedout 16
      = .abort) ∧
    (Socket.read_impl ⟨1, Option.none, true, .active .none (.running () (popTok 1))⟩
      .timedout 16 = .abort) := by
  constructor <;> rfl

/-- Model of the slab `Field` of `buffer.rs`: an entry payload is either an
item or a link in the free list. -/
inductive SlabField (T : Type) where
  | item (it : T)
  | free (next : Option Nat)
deriving DecidableEq, Repr

/-- Model of a slab `Entry` of `buffer.rs`; the `u8` generation is a `Nat`
kept below `2 ^ 8`. -/
structure Entry (T : Type) where
  generation : Nat
  field : SlabField T
deriving DecidableEq, Repr

/-- Model of `Entry::default`. -/
def Entry.default {T : Type} : Entry T := { generation := 0, field := .free Option.none }

/-- Model of `Buffer<S, T>` of `buffer.rs` (the `S` const parameter is passed
to the operations instead). -/
structure Buffer (T : Type) where
  items : List (Entry T)
  next_free : Option Nat
deriving DecidableEq, Repr

/-- Model of the `Index` bit-field of `buffer.rs`: a `u32` value packing
`index` (21 bits), `generation` (8 bits), `is_socket` (1 bit), `is_dpoll`
(1 bit, always built as 1) and a zero sign bit. -/
structure Index where
  bits : Nat
deriving DecidableEq, Repr

def Index.index (i : Index) : Nat := i.bits % 2 ^ 21

def Index.generation (i : Index) : Nat := i.bits / 2 ^ 21 % 2 ^ 8

def Index.is_socket (i : Index) : Bool := decide (i.bits / 2 ^ 29 % 2 = 1)

def Index.is_dpoll (i : Index) : Bool := decide (i.bits / 2 ^ 30 % 2 = 1)

/-- The sign bit (bit 31) of the handle. -/
def Index.signBit (i : Index) : Nat := i.bits / 2 ^ 31 % 2

/-- Model of `Index::from_parts` / the bit-field builder: fields are masked to
their widths, `is_dpoll` defaults to 1, the sign bit to 0. -/
def Index.from_parts (index gene : Nat) (isSocket : Bool) : Index :=
  ⟨index % 2 ^ 21 + gene % 2 ^ 8 * 2 ^ 21 + (if isSocket then 1 else 0) * 2 ^ 29 + 2 ^ 30⟩

/-- Model of `Buffer::allocate`: pop the free list head if there is one, else
append a fresh default entry; the chosen entry is then written through
`get_entry_mut(idx).unwrap()`.  Out-of-bounds indexing and the
"an item is on the free list" panic are `Option.none`. -/
def Buffer.allocate {T : Type} (b : Buffer T) (isSocket : Bool) (x : T) :
    Option (Buffer T × Index) :=
  match b.next_free with
  | some i =>
    match b.items[i]? with
    | Option.none => Option.none
    | some e =>
      match e.field with
      | .item _ => Option.none
      | .free n =>
        let idx := Index.from_parts i e.generation isSocket
        match b.items[idx.index]? with
        | Option.none => Option.none
        | some e2 =>
          if e2.generation = idx.generation then
            some ({ items := b.items.set idx.index { e2 with field := .item x },
                    next_free := n }, idx)
          else Option.none
  | Option.none =>
    let items1 := b.items ++ [Entry.default]
    let idx := Index.from_parts b.items.length 0 isSocket
    match items1[idx.index]? with
    | Option.none => Option.none
    | some e2 =>
      if e2.generation = idx.generation then
        some ({ items := items1.set idx.index { e2 with field := .item x },
                next_free := Option.none }, idx)
      else Option.none

/-- Model of `Buffer::free`: asserts `is_dpoll`, requires a matching
generation and an occupied entry (else the double-free panic), bumps the
wrapping `u8` generation and links the slot onto the free list. -/
def Buffer.free {T : Type} (b : Buffer T) (idx : Index) : Option (Buffer T) :=
  if !idx.is_dpoll then Option.none
  else
    match b.items[idx.index]? with
    | Option.none => Option.none
    | some e =>
      if e.generation = idx.generation then
        match e.field with
        | .free _ => Option.none
        | .item _ =>
          some { items := b.items.set idx.index
                   { generation := (e.generation + 1) % 2 ^ 8,
                     field := .free b.next_free },
                 next_free := some idx.index }
      else Option.none

/-- Model of `Buffer::get`.  The outer `Option` is abort (the source indexes
`self.items[idx.index]` and panics out of bounds); the inner `Option` is the
source's return value ("no such item" on generation mismatch, a free entry,
or a non-dpoll index). -/
def Buffer.get {T : Type} (b : Buffer T) (idx : Index) : Option (Option T) :=
  if !idx.is_dpoll then some Option.none
  else
    match b.items[idx.index]? with
    | Option.none => Option.none
    | some e =>
      if e.generation = idx.generation then
        match e.field with
        | .item it => some (some it)
        | .free _ => some Option.none
      else some Option.none

theorem from_parts_index (i g : Nat) (s : Bool) (hi : i < 2 ^ 21) :
    (Index.from_parts i g s).index = i := by
  unfold Index.from_parts Index.index
  cases s <;> simp <;> omega

theorem from_parts_generation (i g : Nat) (s : Bool) (hg : g < 2 ^ 8) :
    (Index.from_parts i g s).generation = g := by
  unfold Index.from_parts Index.generation
  cases s <;> simp <;> omega

theorem from_parts_is_dpoll (i g : Nat) (s : Bool) :
    (Index.from_parts i g s).is_dpoll = true := by
  unfold Index.from_parts Index.is_dpoll
  cases s <;> simp <;> omega

theorem from_parts_sign (i g : Nat) (s : Bool) :
    (Index.from_parts i g s).signBit = 0 := by
  unfold Index.from_parts Index.signBit
  cases s <;> simp <;> omega

theorem from_parts_bits_range (i g : Nat) (s : Bool) :
    2 ^ 30 ≤ (Index.from_parts i g s).bits ∧ (Index.from_parts i g s).bits < 2 ^ 31 := by
  unfold Index.from_parts
  cases s <;> simp <;> omega

/-- C6: a handle returned by slab allocation decodes to `is_dpoll = 1`, a
clear sign bit (so the `u32` value is below `2 ^ 31` and, as an `i32`,
non-negative) with bit 30 set, and a valid slab index whose stored generation
equals the handle's generation. -/
theorem allocate_handle_encoding {T : Type} (b : Buffer T) (s : Bool) (x : T)
    (hlen : b.items.length < 2 ^ 21)
    (hgen : ∀ e ∈ b.items, e.generation < 2 ^ 8)
    (hfree : ∀ i, b.next_free = some i →
       ∃ e, b.items[i]? = some e ∧ ∃ n, e.field = SlabField.free n) :
    ∃ b' idx, b.allocate s x = some (b', idx) ∧
      idx.is_dpoll = true ∧ idx.signBit = 0 ∧
      2 ^ 30 ≤ idx.bits ∧ idx.bits < 2 ^ 31 ∧
      idx.index < b'.items.length ∧
      ∃ e, b'.items[idx.index]? = some e ∧ e.generation = idx.generation := by
  match hnf : b.next_free with
  | some i =>
    obtain ⟨e, he, n, hef⟩ := hfree i hnf
    have hi : i < b.items.length := by
      by_contra hcon
      rw [List.getElem?_eq_none (by omega)] at he
      exact Option.noConfusion he
    have hg : e.generation < 2 ^ 8 := by
      refine hgen e ?_
      have hgeq : b.items[i]? = some b.items[i] := List.getElem?_eq_getElem hi
      rw [hgeq] at he
      cases he
      exact List.getElem_mem hi
    have hidx : (Index.from_parts i e.generation s).index = i :=
      from_parts_index i e.generation s (by omega)
    have hgene : (Index.from_parts i e.generation s).generation = e.generation :=
      from_parts_generation i e.generation s hg
    refine ⟨{ items := b.items.set i { e with field := SlabField.item x }, next_free := n },
      Index.from_parts i e.generation s, ?_,
      from_parts_is_dpoll .., from_parts_sign ..,
      (from_parts_bits_range ..).1, (from_parts_bits_range ..).2, ?_, ?_⟩
    · unfold Buffer.allocate
      rw [hnf]
      simp only [he, hef, hidx, hgene, if_pos rfl]
      simp
    · simpa [hidx] using hi
    · refine ⟨{ e with field := .item x }, ?_, hgene.symm⟩
      rw [hidx]
      exact List.getElem?_set_self hi
  | Option.none =>
    have hidx : (Index.from_parts b.items.length 0 s).index = b.items.length :=
      from_parts_index _ 0 s hlen
    have hgene : (Index.from_parts b.items.length 0 s).generation = 0 :=
      from_parts_generation _ 0 s (by norm_num)
    have hcat : (b.items ++ [({ generation := 0, field := SlabField.free Option.none } :
        Entry T)])[b.items.length]? =
        some { generation := 0, field := SlabField.free Option.none } := by
      rw [List.getElem?_append_right (le_refl _)]
      simp
    refine ⟨{ items := (b.items ++ [Entry.default]).set b.items.length
                { Entry.default (T := T) with field := SlabField.item x },
              next_free := Option.none },
      Index.from_parts b.items.length 0 s, ?_,
      from_parts_is_dpoll .., from_parts_sign ..,
      (from_parts_bits_range ..).1, (from_parts_bits_range ..).2, ?_, ?_⟩
    · unfold Buffer.allocate
      rw [hnf]
      simp only [Entry.default, hidx, hcat, hgene, if_pos rfl]
      simp
    · simp [hidx, Entry.default]
    · refine ⟨{ generation := 0, field := SlabField.item x }, ?_, hgene.symm⟩
      rw [hidx]
      exact List.getElem?_set_self (by simp)

/-- Witness for C6: allocation into an empty socket slab. -/
theorem allocate_handle_encoding_witness :
    ∃ b' idx, Buffer.allocate (T := Nat) ⟨[], Option.none⟩ true 42 = some (b', idx) ∧
      idx.is_dpoll = true ∧ idx.signBit = 0 ∧
      2 ^ 30 ≤ idx.bits ∧ idx.bits < 2 ^ 31 ∧
      idx.index < b'.items.length ∧
      ∃ e, b'.items[idx.index]? = some e ∧ e.generation = idx.generation :=
  allocate_handle_encoding ⟨[], Option.none⟩ true 42 (by norm_num) (by simp) (by simp)

/-- C7: after `free(h)` of an occupied entry whose generation matches, a
lookup of `h` returns "no such item" (the inner `Option.none`), and the next
allocation, which reuses slot `h.index` from the free list, returns a handle
with the same index but a different generation. -/
theorem free_then_lookup_and_realloc {T : Type} (b : Buffer T) (h : Index) (e : Entry T)
    (s : Bool) (x : T)
    (hget : b.items[h.index]? = some e)
    (hgen : e.generation = h.generation)
    (hg8 : e.generation < 2 ^ 8)
    (hocc : e.field = SlabField.item x)
    (hdp : h.is_dpoll = true) :
    ∃ b', b.free h = some b' ∧
      b'.get h = some Option.none ∧
      ∀ y : T, ∃ b'' idx', b'.allocate s y = some (b'', idx') ∧
        idx'.index = h.index ∧ idx'.generation ≠ h.generation := by
  have hi : h.index < b.items.length := by
    by_contra hcon
    rw [List.getElem?_eq_none (by omega)] at hget
    exact Option.noConfusion hget
  have hbound : h.index < 2 ^ 21 := Nat.mod_lt _ (by norm_num)
  have hgm : (e.generation + 1) % 2 ^ 8 < 2 ^ 8 := Nat.mod_lt _ (by norm_num)
  have hgne : (e.generation + 1) % 2 ^ 8 ≠ e.generation := by omega
  refine ⟨{ items := b.items.set h.index
              { generation := (e.generation + 1) % 2 ^ 8, field := .free b.next_free },
            next_free := some h.index }, ?_, ?_, ?_⟩
  · unfold Buffer.free
    rw [hdp]
    simp only [Bool.not_true, Bool.false_eq_true, if_false, hget, hgen, if_pos rfl, hocc]
    simp
  · unfold Buffer.get
    rw [hdp]
    simp only [Bool.not_true, Bool.false_eq_true, if_false]
    rw [List.getElem?_set_self (by simpa using hi)]
    simp only []
    rw [if_neg (by simpa [← hgen] using hgne)]
  · intro y
    have hset : (b.items.set h.index
        { generation := (e.generation + 1) % 2 ^ 8,
          field := SlabField.free (T := T) b.next_free })[h.index]? =
        some { generation := (e.generation + 1) % 2 ^ 8, field := .free b.next_free } :=
      List.getElem?_set_self (by simpa using hi)
    have hidx : (Index.from_parts h.index ((e.generation + 1) % 2 ^ 8) s).index = h.index :=
      from_parts_index _ _ s hbound
    have hgene : (Index.from_parts h.index ((e.generation + 1) % 2 ^ 8) s).generation =
        (e.generation + 1) % 2 ^ 8 :=
      from_parts_generation _ _ s hgm
    refine ⟨{ items := (b.items.set h.index
                { generation := (e.generation + 1) % 2 ^ 8,
                  field := SlabField.free b.next_free }).set h.index
                { generation := (e.generation + 1) % 2 ^ 8, field := SlabField.item y },
              next_free := b.next_free },
      Index.from_parts h.index ((e.generation + 1) % 2 ^ 8) s, ?_, hidx, ?_⟩
    · unfold Buffer.allocate
      simp only [hset, hidx, hgene, if_pos rfl]
      simp
    · rw [hgene, ← hgen]
      exact hgne

/-- Witness for C7: free the only occupied entry of a one-slot slab, then
look it up and re-allocate. -/
theorem free_then_lookup_and_realloc_witness :
    ∃ b', Buffer.free (T := Nat) ⟨[⟨0, SlabField.item 7⟩], Option.none⟩
        (Index.from_parts 0 0 true) = some b' ∧
      b'.get (Index.from_parts 0 0 true) = some Option.none ∧
      ∀ y : Nat, ∃ b'' idx', b'.allocate true y = some (b'', idx') ∧
        idx'.index = (Index.from_parts 0 0 true).index ∧
        idx'.generation ≠ (Index.from_parts 0 0 true).generation :=
  free_then_lookup_and_realloc ⟨[⟨0, SlabField.item 7⟩], Option.none⟩
    (Index.from_parts 0 0 true) ⟨0, SlabField.item 7⟩ true 7
    (by decide) (by decide) (by decide) rfl (by decide)

/-- Lookup in an association list (first match), modelling `BTreeMap::get`
and slab lookup by key. -/
def lookupA {α : Type} : List (Nat × α) → Nat → Option α
  | [], _ => Option.none
  | (k, v) :: rest, key => if k = key then some v else lookupA rest key

/-- Replace the value of the first entry with the given key, modelling an
in-place update through a shared reference. -/
def updateA {α : Type} : List (Nat × α) → Nat → α → List (Nat × α)
  | [], _, _ => []
  | (k, v) :: rest, key, w => if k = key then (key, w) :: rest else (k, v) :: updateA rest key w

/-- Model of `BTreeMap::insert` keyed by `qd` (ascending order, replacing an
existing entry with the same key). -/
def insertSorted {α : Type} : List (Nat × α) → Nat → α → List (Nat × α)
  | [], key, w => [(key, w)]
  | (k, v) :: rest, key, w =>
    if key < k then (key, w) :: (k, v) :: rest
    else if key = k then (key, w) :: rest
    else (k, v) :: insertSorted rest key w

/-- Remove the first entry with the given key, modelling `BTreeMap::remove`. -/
def removeA {α : Type} : List (Nat × α) → Nat → List (Nat × α)
  | [], _ => []
  | (k, v) :: rest, key => if k = key then rest else (k, v) :: removeA rest key

/-- Model of the dpoll `Item` (as used by `dpoll/mod.rs`): socket `qd`,
socket-slab index, requested event mask, `u64` cookie and the ready-list
membership flag. -/
structure Item where
  qd : Nat
  idx : Nat
  evs : Event
  data : Nat
  on_readylist : Bool
deriving DecidableEq, Repr

/-- The items-set of a dpoll: a map from `qd` to `Item` (`dpoll/items.rs`). -/
abbrev ItemsMap := List (Nat × Item)

/-- The per-thread socket slab, abstracted to a map from slab index to
`Socket`. -/
abbrev SocStore := List (Nat × Socket)

/-- Model of `ReadyList::push` (`dpoll/ready_list.rs`): a no-op when the
item's flag is already set, otherwise set the flag and append the
`(item, data)` pair.  The shared `Rc` reference to the item is modelled by its
`qd` key into the items-set (every pushed item is in the set). -/
def readyPush (items : ItemsMap) (list : List (Nat × Nat)) (q : Nat) :
    Option (ItemsMap × List (Nat × Nat)) :=
  match lookupA items q with
  | Option.none => Option.none
  | some it =>
    if it.on_readylist then some (items, list)
    else some (updateA items q { it with on_readylist := true }, list ++ [(q, it.data)])

/-- The backwards cursor scan of `ReadyList::remove`: delete the last pair
whose item has the given `qd` (scanning from the tail, breaking after the
first match). -/
def removeFirstQd : List (Nat × Nat) → Nat → List (Nat × Nat)
  | [], _ => []
  | p :: rest, q => if p.1 = q then rest else p :: removeFirstQd rest q

/-- Model of `ReadyList::remove`'s list surgery (the caller has already
cleared the flag / taken the item). -/
def readyRemove (list : List (Nat × Nat)) (q : Nat) : List (Nat × Nat) :=
  (removeFirstQd list.reverse q).reverse

/-- Model of `ReadyList::drain` combined with the `drain_ready_list` callback
of `dpoll/mod.rs`: pop up to `max` pairs off the front; for each delivered
pair clear the item's flag and emit an `(events, cookie)` record with
`events = socket.available_events(Event::all())` recomputed now.  Mirroring
the source's `while let Some(curr) = self.list.pop_front() && idx < max`, one
further entry is popped (and dropped undelivered, its flag left set) when the
list is longer than `max`. -/
def drainReady : ItemsMap → SocStore → List (Nat × Nat) → Nat →
    Option (ItemsMap × List (Event × Nat) × List (Nat × Nat))
  | items, _, [], _ => some (items, [], [])
  | items, socs, (q, dta) :: rest, max =>
    if max = 0 then
      some (items, [], rest)
    else
      match lookupA items q with
      | Option.none => Option.none
      | some it =>
        match lookupA socs it.idx with
        | Option.none => Option.none
        | some soc =>
          match drainReady (updateA items q { it with on_readylist := false }) socs rest
              (max - 1) with
          | Option.none => Option.none
          | some (items2, recs, leftover) =>
            some (items2, (soc.available_events Event.all, dta) :: recs, leftover)

/-- The sweep loop of `Dpoll::get_and_schedule_events`: walk the interest
items in map order; for each, look its socket up in the slab
(`socs.get_mut(item.idx).unwrap()`), compute the ready events, promote the
item to a local ready list when ready and not yet flagged, and schedule the
remaining requested events, collecting queue tokens. -/
def sweepItems : SocStore → ItemsMap →
    Option (ItemsMap × SocStore × List Nat × List (Nat × Nat))
  | socs, [] => some ([], socs, [], [])
  | socs, (q, it) :: rest =>
    match lookupA socs it.idx with
    | Option.none => Option.none
    | some soc =>
      let ready := soc.available_events it.evs
      let promoted := !ready.isEmpty && !it.on_readylist
      let it1 := if promoted then { it with on_readylist := true } else it
      let newEntries : List (Nat × Nat) := if promoted then [(q, it.data)] else []
      match soc.schedule_events (it.evs.difference ready) with
      | Option.none => Option.none
      | some (soc1, toks) =>
        match sweepItems (updateA socs it.idx soc1) rest with
        | Option.none => Option.none
        | some (restItems, socs2, toks2, list2) =>
          some ((q, it1) :: restItems, socs2, toks ++ toks2, newEntries ++ list2)

/-- Model of the `Dpoll` state of `dpoll/mod.rs` (the wrapped kernel epoll is
external: its `wait` outcome is a parameter of `pwait`). -/
structure Dpoll where
  items : ItemsMap
  ready_list : List (Nat × Nat)
  qtoks : List Nat
deriving DecidableEq, Repr

/-- Model of `Dpoll::get_and_schedule_events`: clear and rebuild the token
vector, sweep the items, and append the newly promoted items to the ready
list. -/
def Dpoll.get_and_schedule_events (d : Dpoll) (socs : SocStore) :
    Option (Dpoll × SocStore) :=
  match sweepItems socs d.items with
  | Option.none => Option.none
  | some (items1, socs1, toks, newList) =>
    some ({ items := items1, ready_list := d.ready_list ++ newList, qtoks := toks }, socs1)

/-- Outcome of one `demi::wait_any` call: either the outer call fails
(e.g. times out), or it yields a completion for queue `qd` whose inner result
is the completion value — or, for a `FAILED` opcode, the engine-provided
errno. -/
inductive EngResp where
  | errOut (e : PosixError)
  | comp (qd : Nat) (res : Except PosixError QResultValue)
deriving DecidableEq, Repr

/-- Model of `Dpoll::wait`: propagate an outer `wait_any` error with `?`;
`res.unwrap()` a failed completion (an abort); otherwise find the interest
item by the completing `qd`, deliver the completion to its socket, and push
the item onto the ready list. -/
def Dpoll.wait (items : ItemsMap) (socs : SocStore) (ready : List (Nat × Nat))
    (resp : EngResp) :
    Option (Except PosixError (ItemsMap × SocStore × List (Nat × Nat))) :=
  match resp with
  | .errOut e => some (.error e)
  | .comp q res =>
    match res with
    | .error _ => Option.none
    | .ok val =>
      match lookupA items q with
      | Option.none => Option.none
      | some it =>
        match lookupA socs it.idx with
        | Option.none => Option.none
        | some soc =>
          match soc.process_event val with
          | Option.none => Option.none
          | some soc1 =>
            match readyPush items ready q with
            | Option.none => Option.none
            | some (items1, ready1) =>
              some (.ok (items1, updateA socs it.idx soc1, ready1))

/-- The full outcome of one `Dpoll::pwait` call: the returned
`PosixResult<usize>`, the records this dpoll wrote into the caller's event
buffer, the count the kernel epoll appended, whether the saved signal mask
was restored before returning, and the final dpoll / socket-slab state. -/
structure PwaitOut where
  result : Except PosixError Nat
  recs : List (Event × Nat)
  kernelCount : Nat
  maskRestored : Bool
  dp : Dpoll
  socs : SocStore
deriving DecidableEq, Repr

/-- The tail of `Dpoll::pwait` after the engine wait: drain the ready list
into the caller's buffer, wait on the kernel epoll with the remaining
capacity (`epollW`), return TIMEDOUT when nothing was delivered, and restore
the signal mask (only) on the successful exit path. -/
def pwaitRest (items : ItemsMap) (socs : SocStore) (ready : List (Nat × Nat))
    (toks : List Nat) (cap : Nat) (epollW : Nat → Except PosixError Nat)
    (hasSigmask : Bool) : Option PwaitOut :=
  match drainReady items socs ready cap with
  | Option.none => Option.none
  | some (items3, recs, leftover) =>
    let dp : Dpoll := { items := items3, ready_list := leftover, qtoks := toks }
    let kE : Except PosixError Nat :=
      match epollW (cap - recs.length) with
      | .ok k => .ok k
      | .error e => if e = PosixError.TIMEDOUT then .ok 0 else .error e
    match kE with
    | .error e => some ⟨.error e, recs, 0, false, dp, socs⟩
    | .ok k =>
      if recs.length + k = 0 then
        some ⟨.error PosixError.TIMEDOUT, recs, k, false, dp, socs⟩
      else
        some ⟨.ok (recs.length + k), recs, k, hasSigmask, dp, socs⟩

/-- Model of `Dpoll::pwait`: install the signal mask if given, sweep and
schedule, wait once on the engine (`resp` is that call's outcome; a TIMEDOUT
outer error is tolerated, any other is returned), then drain and wait on the
kernel epoll.  `maskRestored` records whether the saved mask was re-installed
before the function returned (the source does so only in front of the final
`Ok` return). -/
def Dpoll.pwait (d : Dpoll) (socs : SocStore) (cap : Nat) (resp : EngResp)
    (epollW : Nat → Except PosixError Nat) (hasSigmask : Bool) : Option PwaitOut :=
  match sweepItems socs d.items with
  | Option.none => Option.none
  | some (items1, socs1, toks, newList) =>
    match Dpoll.wait items1 socs1 (d.ready_list ++ newList) resp with
    | Option.none => Option.none
    | some (.error e) =>
      if e = PosixError.TIMEDOUT then
        pwaitRest items1 socs1 (d.ready_list ++ newList) toks cap epollW hasSigmask
      else
        some ⟨.error e, [], 0, false,
          { items := items1, ready_list := d.ready_list ++ newList, qtoks := toks }, socs1⟩
    | some (.ok (items2, socs2, ready2)) =>
      pwaitRest items2 socs2 ready2 toks cap epollW hasSigmask

/-- Model of the `dpoll::Operation` control commands of
`dpoll/operation.rs` (kernel-FD pass-through is external and not modelled). -/
inductive CtlOp where
  | add (qd : Nat) (idx : Nat) (evs : Event) (data : Nat)
  | del (qd : Nat) (idx : Nat)
  | mod (qd : Nat) (idx : Nat) (evs : Event)
deriving DecidableEq, Repr

/-- Model of `Dpoll::ctl` for library handles: ADD inserts (a `BTreeMap`
insert, replacing any entry with the same `qd`), DEL takes the item
(`unwrap`, an abort when absent) and removes it from the ready list when
flagged, MOD replaces the event mask of an existing item. -/
def Dpoll.ctl (d : Dpoll) (op : CtlOp) : Option (Except PosixError Dpoll) :=
  match op with
  | .add q ix evs dta =>
    some (.ok { d with items := insertSorted d.items q ⟨q, ix, evs, dta, false⟩ })
  | .del q _ =>
    match lookupA d.items q with
    | Option.none => Option.none
    | some it =>
      let ready1 := if it.on_readylist then readyRemove d.ready_list q else d.ready_list
      some (.ok { d with items := removeA d.items q, ready_list := ready1 })
  | .mod q _ evs =>
    match lookupA d.items q with
    | Option.none => Option.none
    | some it => some (.ok { d with items := updateA d.items q { it with evs := evs } })

/-- Model of the result mapping of the ABI function `dpoll_pwait`
(`bindings/mod.rs`): `Ok(count)` is returned as `count`, the internal
TIMEDOUT signal as `0` without touching errno, and any other error as `-1`
with errno set. -/
def dpoll_pwait_ret (res : Except PosixError Nat) : Int × Option PosixError :=
  match res with
  | .ok count => ((count : Int), Option.none)
  | .error e => if e = PosixError.TIMEDOUT then ((0 : Int), Option.none) else ((-1 : Int), some e)

/-- C3: the claim states that after any sequence of operations an item's
`on_ready_list` flag matches its ready-list membership exactly.  On the code,
`ReadyList::drain` pops an entry from the list *before* testing `idx < max`,
so a drain whose capacity is smaller than the list length removes one extra
entry undelivered, leaving that item's flag set while it is no longer on the
list: after pushing items 1 and 2 and draining with capacity 1, item 2 has
`on_readylist = true` but the remaining list is empty. -/
theorem ready_list_drain_drops_flagged_item :
    readyPush [(1, ⟨1, 0, Event.IN, 11, false⟩), (2, ⟨2, 1, Event.IN, 22, false⟩)] [] 1
      = some ([(1, ⟨1, 0, Event.IN, 11, true⟩), (2, ⟨2, 1, Event.IN, 22, false⟩)],
              [(1, 11)]) ∧
    readyPush [(1, ⟨1, 0, Event.IN, 11, true⟩), (2, ⟨2, 1, Event.IN, 22, false⟩)]
      [(1, 11)] 2
      = some ([(1, ⟨1, 0, Event.IN, 11, true⟩), (2, ⟨2, 1, Event.IN, 22, true⟩)],
              [(1, 11), (2, 22)]) ∧
    drainReady [(1, ⟨1, 0, Event.IN, 11, true⟩), (2, ⟨2, 1, Event.IN, 22, true⟩)]
      [(0, ⟨1, Option.none, true, .active .none (.completed (.ok ⟨[[7]], 0, 0⟩))⟩)]
      [(1, 11), (2, 22)] 1
      = some ([(1, ⟨1, 0, Event.IN, 11, false⟩), (2, ⟨2, 1, Event.IN, 22, true⟩)],
              [(Event.all, 11)], []) ∧
    lookupA [(1, (⟨1, 0, Event.IN, 11, false⟩ : Item)), (2, ⟨2, 1, Event.IN, 22, true⟩)] 2
      = some ⟨2, 1, Event.IN, 22, true⟩ ∧
    (2, 22) ∉ ([] : List (Nat × Nat)) := by
  refine ⟨rfl, rfl, rfl, rfl, ?_⟩
  simp

/-- C4: the claim states that during the `pwait` sweep every item whose
socket is not open is evicted from the items-set (and the ready list).  On
the code, `Dpoll::get_and_schedule_events` never inspects the socket's `open`
flag and has no eviction logic at all: with one interest item for a closed
socket, the sweep keeps the item and even submits a fresh pop on the closed
socket (queue token `popTok 9 = 28`).  Moreover, when the socket was closed
through the ABI (`dpoll_close` removes the slab entry), the sweep's
`socs.get_mut(item.idx).unwrap()` panics — the second conjunct, where the
socket store is empty, aborts. -/
theorem sweep_keeps_closed_socket_item :
    Dpoll.get_and_schedule_events ⟨[(5, ⟨5, 0, Event.IN, 99, false⟩)], [], []⟩
      [(0, ⟨9, Option.none, false, .active .none .none⟩)]
      = some (⟨[(5, ⟨5, 0, Event.IN, 99, false⟩)], [], [popTok 9]⟩,
              [(0, ⟨9, Option.none, false, .active .none (.running () (popTok 9))⟩)]) ∧
    lookupA [(5, (⟨5, 0, Event.IN, 99, false⟩ : Item))] 5 = some ⟨5, 0, Event.IN, 99, false⟩ ∧
    Dpoll.get_and_schedule_events ⟨[(5, ⟨5, 0, Event.IN, 99, false⟩)], [], []⟩ []
      = Option.none := by
  exact ⟨rfl, rfl, rfl⟩

/-- C5: the claim states that `pwait` restores the previous signal mask on
every exit path.  On the code, the restoring `pthread_sigmask` call sits only
in front of the final `Ok` return: on the zero-events path `pwait` returns
`Err(TIMEDOUT)` *before* reaching it.  Evaluating a `pwait` with a signal
mask on an empty interest set: the call returns the TIMEDOUT signal with the
saved mask not restored (`maskRestored = false`). -/
theorem pwait_timeout_path_skips_sigmask_restore :
    Dpoll.pwait ⟨[], [], []⟩ [] 1 (.errOut PosixError.TIMEDOUT)
      (fun _ => .error PosixError.TIMEDOUT) true
      = some ⟨.error PosixError.TIMEDOUT, [], 0, false, ⟨[], [], []⟩, []⟩ := by
  rfl

/-- C9: the claim states that an engine completion reporting failure moves
the operation to `Completed` carrying the engine-provided errno, which the
consuming call then returns.  On the code both consumers panic instead:
`Dpoll::wait` calls `res.unwrap()` on the inner completion result, and
`Operation::wait` hits `panic!("{}", err)` on any non-timeout error, so a
failed completion (here with errno ECONNRESET) aborts the process. -/
theorem engine_failure_causes_abort :
    Dpoll.wait [(3, ⟨3, 0, Event.IN, 7, false⟩)]
      [(0, ⟨3, Option.none, true, .active .none (.running () (popTok 3))⟩)] []
      (.comp 3 (.error PosixError.CONNRESET)) = Option.none ∧
    Operation.wait (Operation.running () (popTok 3) : Operation Unit SgArrayByteIter)
      (EngWait.fail PosixError.CONNRESET) = Option.none := by
  exact ⟨rfl, rfl⟩

theorem lookupA_insertSorted_self {α : Type} (l : List (Nat × α)) (k : Nat) (v : α) :
    lookupA (insertSorted l k v) k = some v := by
  induction l with
  | nil => simp [insertSorted, lookupA]
  | cons p rest ih =>
    obtain ⟨k', v'⟩ := p
    by_cases h1 : k < k'
    · simp [insertSorted, h1, lookupA]
    · by_cases h2 : k = k'
      · simp [insertSorted, h1, h2, lookupA]
      · have hne : k' ≠ k := fun hc => h2 hc.symm
        simp [insertSorted, h1, h2, lookupA, hne, ih]

theorem lookupA_insertSorted_ne {α : Type} (l : List (Nat × α)) (k k' : Nat) (v : α)
    (h : k' ≠ k) : lookupA (insertSorted l k v) k' = lookupA l k' := by
  have hne : ¬k = k' := fun hc => h hc.symm
  induction l with
  | nil => simp [insertSorted, lookupA, hne]
  | cons p rest ih =>
    obtain ⟨k0, v0⟩ := p
    by_cases h1 : k < k0
    · simp [insertSorted, h1, lookupA, hne]
    · by_cases h2 : k = k0
      · subst h2
        simp [insertSorted, h1, lookupA, hne]
      · simp only [insertSorted, if_neg h1, if_neg h2, lookupA]
        by_cases h3 : k0 = k'
        · simp [h3]
        · simp [h3, ih]

/-- C10: a second `ctl` ADD for an already-registered socket does not report
an error: `Items::insert` is a `BTreeMap::insert`, which replaces the
existing interest item (installing the new event mask, cookie and a cleared
ready-list flag) and `Dpoll::ctl` returns `Ok(())`; all other keys are
untouched. -/
theorem ctl_add_duplicate_replaces (d : Dpoll) (q ix dta : Nat) (evs : Event) (old : Item)
    (h : lookupA d.items q = some old) :
    Dpoll.ctl d (.add q ix evs dta) =
      some (.ok { d with items := insertSorted d.items q ⟨q, ix, evs, dta, false⟩ }) ∧
    lookupA (insertSorted d.items q ⟨q, ix, evs, dta, false⟩) q =
      some ⟨q, ix, evs, dta, false⟩ ∧
    ∀ q', q' ≠ q → lookupA (insertSorted d.items q ⟨q, ix, evs, dta, false⟩) q' =
      lookupA d.items q' :=
  ⟨rfl, lookupA_insertSorted_self .., fun _ hq => lookupA_insertSorted_ne _ _ _ _ hq⟩

/-- Witness for C10: re-ADD of the already-registered socket 4 with a new
mask and cookie. -/
theorem ctl_add_duplicate_replaces_witness :
    Dpoll.ctl ⟨[(4, ⟨4, 0, Event.IN, 5, true⟩)], [], []⟩ (.add 4 1 Event.OUT 77) =
      some (.ok { items := insertSorted [(4, ⟨4, 0, Event.IN, 5, true⟩)] 4
                    ⟨4, 1, Event.OUT, 77, false⟩,
                  ready_list := [], qtoks := [] }) ∧
    lookupA (insertSorted [(4, (⟨4, 0, Event.IN, 5, true⟩ : Item))] 4
        ⟨4, 1, Event.OUT, 77, false⟩) 4 = some ⟨4, 1, Event.OUT, 77, false⟩ ∧
    ∀ q', q' ≠ 4 → lookupA (insertSorted [(4, (⟨4, 0, Event.IN, 5, true⟩ : Item))] 4
        ⟨4, 1, Event.OUT, 77, false⟩) q' =
      lookupA [(4, (⟨4, 0, Event.IN, 5, true⟩ : Item))] q' :=
  ctl_add_duplicate_replaces ⟨[(4, ⟨4, 0, Event.IN, 5, true⟩)], [], []⟩ 4 1 77 Event.OUT
    ⟨4, 0, Event.IN, 5, true⟩ rfl

theorem drainReady_length_le (list : List (Nat × Nat)) (items : ItemsMap) (socs : SocStore)
    (max : Nat) (items3 : ItemsMap) (recs : List (Event × Nat)) (leftover : List (Nat × Nat))
    (h : drainReady items socs list max = some (items3, recs, leftover)) :
    recs.length ≤ max := by
  induction list generalizing items max items3 recs leftover with
  | nil =>
    unfold drainReady at h
    cases h
    simp
  | cons p rest ih =>
    obtain ⟨q, dta⟩ := p
    unfold drainReady at h
    by_cases hm : max = 0
    · rw [if_pos hm] at h
      cases h
      simp
    · rw [if_neg hm] at h
      cases hl : lookupA items q with
      | none =>
        simp only [hl] at h
        exact Option.noConfusion h
      | some it =>
        simp only [hl] at h
        cases hs : lookupA socs it.idx with
        | none =>
          simp only [hs] at h
          exact Option.noConfusion h
        | some soc =>
          simp only [hs] at h
          cases hd : drainReady (updateA items q { it with on_readylist := false }) socs rest
              (max - 1) with
          | none =>
            simp only [hd] at h
            exact Option.noConfusion h
          | some tr =>
            obtain ⟨items2, recs2, lo2⟩ := tr
            simp only [hd, Option.some.injEq, Prod.mk.injEq] at h
            obtain ⟨h1, h2, h3⟩ := h
            subst h2
            have := ih _ _ _ _ _ hd
            simp only [List.length_cons]
            omega

theorem pwaitRest_spec (items : ItemsMap) (socs : SocStore) (ready : List (Nat × Nat))
    (toks : List Nat) (cap : Nat) (epollW : Nat → Except PosixError Nat) (hs : Bool)
    (out : PwaitOut)
    (hrun : pwaitRest items socs ready toks cap epollW hs = some out)
    (hepOk : ∀ c n, epollW c = .ok n → n ≤ c)
    (hepErr : ∀ c e, epollW c = .error e → e = PosixError.TIMEDOUT) :
    out.recs.length + out.kernelCount ≤ cap ∧
    (out.result = .error PosixError.TIMEDOUT ↔ out.recs.length + out.kernelCount = 0) ∧
    (out.result = .ok (out.recs.length + out.kernelCount) ∨
      out.result = .error PosixError.TIMEDOUT) ∧
    dpoll_pwait_ret out.result = ((out.recs.length + out.kernelCount : Int), Option.none) := by
  unfold pwaitRest at hrun
  cases hd : drainReady items socs ready cap with
  | none =>
    simp only [hd] at hrun
    exact Option.noConfusion hrun
  | some tr =>
    obtain ⟨items3, recs, lo⟩ := tr
    simp only [hd] at hrun
    have hlen : recs.length ≤ cap := drainReady_length_le _ _ _ _ _ _ _ hd
    cases hE : epollW (cap - recs.length) with
    | ok k =>
      simp only [hE] at hrun
      have hk : k ≤ cap - recs.length := hepOk _ _ hE
      by_cases hz : recs.length + k = 0
      · rw [if_pos hz] at hrun
        cases hrun
        refine ⟨by simpa using (by omega : recs.length + k ≤ cap), ?_, ?_, ?_⟩
        · simp [hz]
        · simp
        · simp [dpoll_pwait_ret, hz]
          omega
      · rw [if_neg hz] at hrun
        cases hrun
        refine ⟨by simpa using (by omega : recs.length + k ≤ cap), ?_, ?_, ?_⟩
        · simp only []
          constructor
          · intro hc
            exact absurd hc (by simp)
          · intro hc
            exact absurd hc hz
        · simp
        · simp [dpoll_pwait_ret]
    | error e =>
      simp only [hE] at hrun
      have he : e = PosixError.TIMEDOUT := hepErr _ _ hE
      rw [if_pos he] at hrun
      simp only [] at hrun
      by_cases hz : recs.length + 0 = 0
      · rw [if_pos hz] at hrun
        cases hrun
        refine ⟨by simpa using (by omega : recs.length + 0 ≤ cap), ?_, ?_, ?_⟩
        · simp [hz]
        · simp
        · simp only [dpoll_pwait_ret, if_pos rfl]
          simp
          omega
      · rw [if_neg hz] at hrun
        cases hrun
        refine ⟨by simpa using (by omega : recs.length + 0 ≤ cap), ?_, ?_, ?_⟩
        · simp only []
          constructor
          · intro hc
            exact absurd hc (by simp)
          · intro hc
            exact absurd hc (by omega)
        · simp
        · simp [dpoll_pwait_ret]

/-- C8: for a `pwait` with event capacity `cap` that does not abort, under
the kernel-epoll contract (at most the remaining capacity is filled; errors
are timeouts) and a benign engine outcome (an outer `wait_any` error is a
timeout), the delivered count `m = recs.length + kernelCount` satisfies
`0 ≤ m ≤ cap`; `pwait` returns the internal TIMEDOUT signal exactly when
`m = 0`; and the ABI mapping of `dpoll_pwait` turns the result into return
value `m` with errno untouched (TIMEDOUT becoming return value 0). -/
theorem pwait_event_count_and_timeout_mapping
    (d : Dpoll) (socs : SocStore) (cap : Nat) (resp : EngResp)
    (epollW : Nat → Except PosixError Nat) (hs : Bool) (out : PwaitOut)
    (hrun : Dpoll.pwait d socs cap resp epollW hs = some out)
    (hepOk : ∀ c n, epollW c = .ok n → n ≤ c)
    (hepErr : ∀ c e, epollW c = .error e → e = PosixError.TIMEDOUT)
    (hresp : ∀ e, resp = .errOut e → e = PosixError.TIMEDOUT) :
    out.recs.length + out.kernelCount ≤ cap ∧
    (out.result = .error PosixError.TIMEDOUT ↔ out.recs.length + out.kernelCount = 0) ∧
    (out.result = .ok (out.recs.length + out.kernelCount) ∨
      out.result = .error PosixError.TIMEDOUT) ∧
    dpoll_pwait_ret out.result = ((out.recs.length + out.kernelCount : Int), Option.none) := by
  unfold Dpoll.pwait at hrun
  cases hsw : sweepItems socs d.items with
  | none =>
    simp only [hsw] at hrun
    exact Option.noConfusion hrun
  | some sw =>
    obtain ⟨items1, socs1, toks, newList⟩ := sw
    simp only [hsw] at hrun
    cases resp with
    | errOut e =>
      have he : e = PosixError.TIMEDOUT := hresp e rfl
      subst he
      simp only [Dpoll.wait, if_pos rfl] at hrun
      exact pwaitRest_spec _ _ _ _ _ _ _ _ hrun hepOk hepErr
    | comp q res =>
      cases res with
      | error e =>
        simp only [Dpoll.wait] at hrun
        exact Option.noConfusion hrun
      | ok val =>
        simp only [Dpoll.wait] at hrun
        cases hl : lookupA items1 q with
        | none =>
          simp only [hl] at hrun
          exact Option.noConfusion hrun
        | some it =>
          simp only [hl] at hrun
          cases hsoc : lookupA socs1 it.idx with
          | none =>
            simp only [hsoc] at hrun
            exact Option.noConfusion hrun
          | some soc =>
            simp only [hsoc] at hrun
            cases hpe : soc.process_event val with
            | none =>
              simp only [hpe] at hrun
              exact Option.noConfusion hrun
            | some soc1 =>
              simp only [hpe] at hrun
              cases hp : readyPush items1 (d.ready_list ++ newList) q with
              | none =>
                simp only [hp] at hrun
                exact Option.noConfusion hrun
              | some pr =>
                obtain ⟨items2, ready2⟩ := pr
                simp only [hp] at hrun
                exact pwaitRest_spec _ _ _ _ _ _ _ _ hrun hepOk hepErr

/-- Witness for C8: an empty dpoll, capacity 1, engine timeout and kernel
timeout — zero events, result TIMEDOUT, ABI return value 0 with no errno. -/
theorem pwait_event_count_and_timeout_mapping_witness :
    (⟨.error PosixError.TIMEDOUT, [], 0, false, ⟨[], [], []⟩, []⟩ : PwaitOut).recs.length +
      (⟨.error PosixError.TIMEDOUT, [], 0, false, ⟨[], [], []⟩, []⟩ : PwaitOut).kernelCount
      ≤ 1 ∧
    ((⟨.error PosixError.TIMEDOUT, [], 0, false, ⟨[], [], []⟩, []⟩ : PwaitOut).result =
        .error PosixError.TIMEDOUT ↔
      (⟨.error PosixError.TIMEDOUT, [], 0, false, ⟨[], [], []⟩, []⟩ : PwaitOut).recs.length +
        (⟨.error PosixError.TIMEDOUT, [], 0, false, ⟨[], [], []⟩, []⟩ : PwaitOut).kernelCount
        = 0) ∧
    ((⟨.error PosixError.TIMEDOUT, [], 0, false, ⟨[], [], []⟩, []⟩ : PwaitOut).result =
        .ok ((⟨.error PosixError.TIMEDOUT, [], 0, false, ⟨[], [], []⟩, []⟩ : PwaitOut).recs.length +
          (⟨.error PosixError.TIMEDOUT, [], 0, false, ⟨[], [], []⟩, []⟩ : PwaitOut).kernelCount) ∨
      (⟨.error PosixError.TIMEDOUT, [], 0, false, ⟨[], [], []⟩, []⟩ : PwaitOut).result =
        .error PosixError.TIMEDOUT) ∧
    dpoll_pwait_ret (⟨.error PosixError.TIMEDOUT, [], 0, false, ⟨[], [], []⟩, []⟩ : PwaitOut).result =
      (((⟨.error PosixError.TIMEDOUT, [], 0, false, ⟨[], [], []⟩, []⟩ : PwaitOut).recs.length +
        (⟨.error PosixError.TIMEDOUT, [], 0, false, ⟨[], [], []⟩, []⟩ : PwaitOut).kernelCount : Int),
       Option.none) :=
  pwait_event_count_and_timeout_mapping ⟨[], [], []⟩ [] 1 (.errOut PosixError.TIMEDOUT)
    (fun _ => .error PosixError.TIMEDOUT) false
    ⟨.error PosixError.TIMEDOUT, [], 0, false, ⟨[], [], []⟩, []⟩ rfl
    (by intro c n h; exact Except.noConfusion h)
    (by intro c e h; cases h; rfl)
    (by intro e h; cases h; rfl)

/-- Counterexample to C2 as stated ("for every capacity of the caller's event
buffer"): two active sockets (qd 1 and qd 2), both registered with interest
IN and both with a completed pop.  A first `pwait` with capacity 2 reports IN
for socket 2 (record `(Event.all, 22)`).  The caller performs no read — the
second `pwait` runs on the returned state unchanged, with socket 2's read
operation still completed — yet that next `pwait`, called with capacity 1,
delivers only socket 1's record: no record carries socket 2's cookie 22, so
IN is not reported for socket 2. -/
theorem pwait_level_trigger_capacity_counterexample :
    ∃ out1 out2 : PwaitOut,
      Dpoll.pwait ⟨[(1, ⟨1, 0, Event.IN, 11, false⟩), (2, ⟨2, 1, Event.IN, 22, false⟩)], [], []⟩
        [(0, ⟨1, Option.none, true, .active .none (.completed (.ok ⟨[[7]], 0, 0⟩))⟩),
         (1, ⟨2, Option.none, true, .active .none (.completed (.ok ⟨[[8]], 0, 0⟩))⟩)]
        2 (.errOut PosixError.TIMEDOUT) (fun _ => .error PosixError.TIMEDOUT) false
        = some out1 ∧
      (Event.all, 22) ∈ out1.recs ∧
      lookupA out1.socs 1
        = some ⟨2, Option.none, true, .active .none (.completed (.ok ⟨[[8]], 0, 0⟩))⟩ ∧
      Dpoll.pwait out1.dp out1.socs 1 (.errOut PosixError.TIMEDOUT)
        (fun _ => .error PosixError.TIMEDOUT) false = some out2 ∧
      out2.recs.all (fun r => decide (r.2 ≠ 22)) = true := by
  refine ⟨_, _, rfl, ?_, rfl, rfl, rfl⟩
  decide

theorem lookupA_updateA_self {α : Type} (l : List (Nat × α)) (k : Nat) (v w : α)
    (h : lookupA l k = some v) : lookupA (updateA l k w) k = some w := by
  induction l with
  | nil => simp [lookupA] at h
  | cons p rest ih =>
    obtain ⟨k0, v0⟩ := p
    by_cases hk : k0 = k
    · simp [updateA, hk, lookupA]
    · simp only [lookupA, if_neg hk] at h
      simp [updateA, hk, lookupA, ih h]

theorem lookupA_updateA_ne {α : Type} (l : List (Nat × α)) (k k' : Nat) (w : α)
    (h : k' ≠ k) : lookupA (updateA l k w) k' = lookupA l k' := by
  induction l with
  | nil => simp [updateA]
  | cons p rest ih =>
    obtain ⟨k0, v0⟩ := p
    by_cases hk : k0 = k
    · subst hk
      have hnk : ¬k0 = k' := fun hc => h hc.symm
      simp [updateA, lookupA, hnk]
    · simp [updateA, hk, lookupA, ih]

theorem available_events_completed_read_evIn (qd : Nat) (addr : Option Nat) (opn : Bool)
    (w : Operation SgArray Unit) (r : Except PosixError SgArrayByteIter) (evs : Event)
    (hin : evs.evIn = true) :
    (Socket.available_events ⟨qd, addr, opn, .active w (.completed r)⟩ evs).evIn = true := by
  cases w <;>
    simp [Socket.available_events, Operation.is_finished, Operation.is_running,
      Event.intersection, Event.union, Event.IN, Event.OUT, Event.empty, hin]

theorem event_isEmpty_false_of_evIn (ev : Event) (h : ev.evIn = true) :
    ev.isEmpty = false := by
  simp [Event.isEmpty, h]

theorem schedule_events_read_completed (qd : Nat) (addr : Option Nat) (opn : Bool)
    (w : Operation SgArray Unit) (r : Except PosixError SgArrayByteIter) (evs : Event)
    (s' : Socket) (toks : List Nat)
    (hrun : Socket.schedule_events ⟨qd, addr, opn, .active w (.completed r)⟩ evs
      = some (s', toks)) :
    s' = ⟨qd, addr, opn, .active w (.completed r)⟩ := by
  unfold Socket.schedule_events at hrun
  by_cases hin : evs.intersects Event.IN
  · simp only [hin, if_pos] at hrun
    exact Option.noConfusion hrun
  · simp only [hin] at hrun
    cases w with
    | running p tok =>
      simp only [Bool.false_eq_true, if_false, Option.some.injEq, Prod.mk.injEq] at hrun
      exact hrun.1.symm
    | none =>
      by_cases hout : evs.intersects Event.OUT
      · simp only [hout, Bool.false_eq_true, if_false, if_pos] at hrun
        exact Option.noConfusion hrun
      · simp only [hout, Bool.false_eq_true, if_false, Option.some.injEq,
          Prod.mk.injEq] at hrun
        exact hrun.1.symm
    | completed res =>
      by_cases hout : evs.intersects Event.OUT
      · simp only [hout, Bool.false_eq_true, if_false, if_pos] at hrun
        exact Option.noConfusion hrun
      · simp only [hout, Bool.false_eq_true, if_false, Option.some.injEq,
          Prod.mk.injEq] at hrun
        exact hrun.1.symm


theorem sweepItems_preserves_completed (items : ItemsMap) (socs : SocStore)
    (items' : ItemsMap) (socs' : SocStore) (toks : List Nat) (nl : List (Nat × Nat))
    (X qd : Nat) (addr : Option Nat) (opn : Bool) (w : Operation SgArray Unit)
    (r : Except PosixError SgArrayByteIter)
    (hrun : sweepItems socs items = some (items', socs', toks, nl))
    (hsoc : lookupA socs X = some ⟨qd, addr, opn, .active w (.completed r)⟩) :
    lookupA socs' X = some ⟨qd, addr, opn, .active w (.completed r)⟩ := by
  induction items generalizing socs items' socs' toks nl with
  | nil =>
    unfold sweepItems at hrun
    cases hrun
    exact hsoc
  | cons p rest ih =>
    obtain ⟨q0, it0⟩ := p
    unfold sweepItems at hrun
    cases hl0 : lookupA socs it0.idx with
    | none =>
      simp only [hl0] at hrun
      exact Option.noConfusion hrun
    | some soc0 =>
      simp only [hl0] at hrun
      cases hse : soc0.schedule_events (it0.evs.difference (soc0.available_events it0.evs)) with
      | none =>
        simp only [hse] at hrun
        exact Option.noConfusion hrun
      | some pr =>
        obtain ⟨soc1, tk0⟩ := pr
        simp only [hse] at hrun
        cases hsw2 : sweepItems (updateA socs it0.idx soc1) rest with
        | none =>
          simp only [hsw2] at hrun
          exact Option.noConfusion hrun
        | some sw2 =>
          obtain ⟨restItems, socs2, toks2, list2⟩ := sw2
          simp only [hsw2, Option.some.injEq, Prod.mk.injEq] at hrun
          obtain ⟨hI, hS, hT, hL⟩ := hrun
          by_cases hX : it0.idx = X
          · rw [hX] at hl0
            rw [hX] at hsw2
            rw [hsoc] at hl0
            injection hl0 with heq
            subst heq
            have hs1 : soc1 = ⟨qd, addr, opn, .active w (.completed r)⟩ :=
              schedule_events_read_completed _ _ _ _ _ _ _ _ hse
            subst hs1
            have hnext : lookupA (updateA socs X
                (⟨qd, addr, opn, .active w (.completed r)⟩ : Socket)) X =
                some ⟨qd, addr, opn, .active w (.completed r)⟩ :=
              lookupA_updateA_self _ _ _ _ hsoc
            rw [← hS]
            exact ih _ _ _ _ _ hsw2 hnext
          · have hnext : lookupA (updateA socs it0.idx soc1) X =
                some ⟨qd, addr, opn, .active w (.completed r)⟩ := by
              rw [lookupA_updateA_ne _ _ _ _ (fun hc => hX hc.symm)]
              exact hsoc
            rw [← hS]
            exact ih _ _ _ _ _ hsw2 hnext

theorem sweepItems_items_lookup (items : ItemsMap) (socs : SocStore)
    (items' : ItemsMap) (socs' : SocStore) (toks : List Nat) (nl : List (Nat × Nat))
    (q : Nat) (it : Item)
    (hrun : sweepItems socs items = some (items', socs', toks, nl))
    (hit : lookupA items q = some it) :
    ∃ b : Bool, lookupA items' q = some { it with on_readylist := b } := by
  induction items generalizing socs items' socs' toks nl with
  | nil => exact Option.noConfusion hit
  | cons p rest ih =>
    obtain ⟨q0, it0⟩ := p
    unfold sweepItems at hrun
    cases hl0 : lookupA socs it0.idx with
    | none =>
      simp only [hl0] at hrun
      exact Option.noConfusion hrun
    | some soc0 =>
      simp only [hl0] at hrun
      cases hse : soc0.schedule_events (it0.evs.difference (soc0.available_events it0.evs)) with
      | none =>
        simp only [hse] at hrun
        exact Option.noConfusion hrun
      | some pr =>
        obtain ⟨soc1, tk0⟩ := pr
        simp only [hse] at hrun
        cases hsw2 : sweepItems (updateA socs it0.idx soc1) rest with
        | none =>
          simp only [hsw2] at hrun
          exact Option.noConfusion hrun
        | some sw2 =>
          obtain ⟨restItems, socs2, toks2, list2⟩ := sw2
          simp only [hsw2, Option.some.injEq, Prod.mk.injEq] at hrun
          obtain ⟨hI, hS, hT, hL⟩ := hrun
          by_cases hq : q0 = q
          · subst hq
            have hit' : it0 = it := by simpa [lookupA] using hit
            subst hit'
            rw [← hI]
            by_cases hp : (!(soc0.available_events it0.evs).isEmpty && !it0.on_readylist) = true
            · refine ⟨true, ?_⟩
              simp [lookupA, hp]
            · refine ⟨it0.on_readylist, ?_⟩
              simp [lookupA, hp]
          · simp only [lookupA, if_neg hq] at hit
            rw [← hI]
            obtain ⟨b, hb⟩ := ih _ _ _ _ _ hsw2 hit
            refine ⟨b, ?_⟩
            simpa [lookupA, hq] using hb

theorem sweepItems_newList_length (items : ItemsMap) (socs : SocStore)
    (items' : ItemsMap) (socs' : SocStore) (toks : List Nat) (nl : List (Nat × Nat))
    (hrun : sweepItems socs items = some (items', socs', toks, nl)) :
    nl.length ≤ items.length := by
  induction items generalizing socs items' socs' toks nl with
  | nil =>
    unfold sweepItems at hrun
    cases hrun
    simp
  | cons p rest ih =>
    obtain ⟨q0, it0⟩ := p
    unfold sweepItems at hrun
    cases hl0 : lookupA socs it0.idx with
    | none =>
      simp only [hl0] at hrun
      exact Option.noConfusion hrun
    | some soc0 =>
      simp only [hl0] at hrun
      cases hse : soc0.schedule_events (it0.evs.difference (soc0.available_events it0.evs)) with
      | none =>
        simp only [hse] at hrun
        exact Option.noConfusion hrun
      | some pr =>
        obtain ⟨soc1, tk0⟩ := pr
        simp only [hse] at hrun
        cases hsw2 : sweepItems (updateA socs it0.idx soc1) rest with
        | none =>
          simp only [hsw2] at hrun
          exact Option.noConfusion hrun
        | some sw2 =>
          obtain ⟨restItems, socs2, toks2, list2⟩ := sw2
          simp only [hsw2, Option.some.injEq, Prod.mk.injEq] at hrun
          obtain ⟨hI, hS, hT, hL⟩ := hrun
          have h2 := ih _ _ _ _ _ hsw2
          rw [← hL]
          by_cases hp : (!(soc0.available_events it0.evs).isEmpty && !it0.on_readylist) = true
          · simp only [hp, if_pos rfl, List.length_append, List.length_cons]
            simp
            omega
          · simp only [hp]
            simp
            omega

theorem sweepItems_promotes (items : ItemsMap) (socs : SocStore)
    (items' : ItemsMap) (socs' : SocStore) (toks : List Nat) (nl : List (Nat × Nat))
    (q : Nat) (it : Item) (qd : Nat) (addr : Option Nat) (opn : Bool)
    (w : Operation SgArray Unit) (r : Except PosixError SgArrayByteIter)
    (hrun : sweepItems socs items = some (items', socs', toks, nl))
    (hit : lookupA items q = some it)
    (hflag : it.on_readylist = false)
    (hin : it.evs.evIn = true)
    (hsoc : lookupA socs it.idx = some ⟨qd, addr, opn, .active w (.completed r)⟩) :
    (q, it.data) ∈ nl := by
  induction items generalizing socs items' socs' toks nl with
  | nil => exact Option.noConfusion hit
  | cons p rest ih =>
    obtain ⟨q0, it0⟩ := p
    unfold sweepItems at hrun
    cases hl0 : lookupA socs it0.idx with
    | none =>
      simp only [hl0] at hrun
      exact Option.noConfusion hrun
    | some soc0 =>
      simp only [hl0] at hrun
      cases hse : soc0.schedule_events (it0.evs.difference (soc0.available_events it0.evs)) with
      | none =>
        simp only [hse] at hrun
        exact Option.noConfusion hrun
      | some pr =>
        obtain ⟨soc1, tk0⟩ := pr
        simp only [hse] at hrun
        cases hsw2 : sweepItems (updateA socs it0.idx soc1) rest with
        | none =>
          simp only [hsw2] at hrun
          exact Option.noConfusion hrun
        | some sw2 =>
          obtain ⟨restItems, socs2, toks2, list2⟩ := sw2
          simp only [hsw2, Option.some.injEq, Prod.mk.injEq] at hrun
          obtain ⟨hI, hS, hT, hL⟩ := hrun
          by_cases hq : q0 = q
          · subst hq
            have hit' : it0 = it := by simpa [lookupA] using hit
            subst hit'
            rw [hsoc] at hl0
            injection hl0 with heq
            subst heq
            have hev : ((⟨qd, addr, opn, .active w (.completed r)⟩ : Socket).available_events
                it0.evs).evIn = true :=
              available_events_completed_read_evIn _ _ _ _ _ _ hin
            have hne : ((⟨qd, addr, opn, .active w (.completed r)⟩ : Socket).available_events
                it0.evs).isEmpty = false :=
              event_isEmpty_false_of_evIn _ hev
            rw [← hL]
            simp [hne, hflag]
          · simp only [lookupA, if_neg hq] at hit
            have hnext : lookupA (updateA socs it0.idx soc1) it.idx =
                some ⟨qd, addr, opn, .active w (.completed r)⟩ := by
              by_cases hX : it0.idx = it.idx
              · rw [hX] at hl0
                rw [hsoc] at hl0
                injection hl0 with heq
                subst heq
                have hs1 : soc1 = ⟨qd, addr, opn, .active w (.completed r)⟩ :=
                  schedule_events_read_completed _ _ _ _ _ _ _ _ hse
                subst hs1
                rw [hX]
                exact lookupA_updateA_self _ _ _ _ hsoc
              · rw [lookupA_updateA_ne _ _ _ _ (fun hc => hX hc.symm)]
                exact hsoc
            have hmem := ih _ _ _ _ _ hsw2 hit hnext
            rw [← hL]
            exact List.mem_append_right _ hmem

theorem process_event_preserves_completed_read (qd : Nat) (addr : Option Nat) (opn : Bool)
    (w : Operation SgArray Unit) (r : Except PosixError SgArrayByteIter)
    (val : QResultValue) (soc1 : Socket)
    (hpe : Socket.process_event ⟨qd, addr, opn, .active w (.completed r)⟩ val = some soc1) :
    ∃ w', soc1 = ⟨qd, addr, opn, .active w' (.completed r)⟩ := by
  cases val with
  | push =>
    cases w with
    | running p tok =>
      simp only [Socket.process_event, Operation.complete, Option.map] at hpe
      injection hpe with heq
      exact ⟨.completed (.ok ()), heq.symm⟩
    | none =>
      simp only [Socket.process_event, Operation.complete, Option.map] at hpe
      exact Option.noConfusion hpe
    | completed res =>
      simp only [Socket.process_event, Operation.complete, Option.map] at hpe
      exact Option.noConfusion hpe
  | pop sga =>
    simp only [Socket.process_event, Operation.complete, Option.map] at hpe
    exact Option.noConfusion hpe
  | accept acc =>
    simp only [Socket.process_event] at hpe
    exact Option.noConfusion hpe

theorem dpollWait_comp_preserves (items : ItemsMap) (socs : SocStore)
    (ready : List (Nat × Nat)) (q' : Nat) (val : QResultValue)
    (items2 : ItemsMap) (socs2 : SocStore) (ready2 : List (Nat × Nat))
    (X qd : Nat) (addr : Option Nat) (opn : Bool) (w : Operation SgArray Unit)
    (r : Except PosixError SgArrayByteIter)
    (hrun : Dpoll.wait items socs ready (.comp q' (.ok val)) =
      some (.ok (items2, socs2, ready2)))
    (hsoc : lookupA socs X = some ⟨qd, addr, opn, .active w (.completed r)⟩) :
    (∃ w', lookupA socs2 X = some ⟨qd, addr, opn, .active w' (.completed r)⟩) ∧
    (∀ p : Nat × Nat, p ∈ ready → p ∈ ready2) ∧
    ready2.length ≤ ready.length + 1 ∧
    (∀ qq itq, lookupA items qq = some itq →
      ∃ b : Bool, lookupA items2 qq = some { itq with on_readylist := b }) := by
  unfold Dpoll.wait at hrun
  cases hl : lookupA items q' with
  | none =>
    simp only [hl] at hrun
    exact Option.noConfusion hrun
  | some it' =>
    simp only [hl] at hrun
    cases hsoc' : lookupA socs it'.idx with
    | none =>
      simp only [hsoc'] at hrun
      exact Option.noConfusion hrun
    | some soc' =>
      simp only [hsoc'] at hrun
      cases hpe : soc'.process_event val with
      | none =>
        simp only [hpe] at hrun
        exact Option.noConfusion hrun
      | some soc1 =>
        simp only [hpe] at hrun
        unfold readyPush at hrun
        simp only [hl] at hrun
        cases hfl : it'.on_readylist with
        | true =>
          rw [if_pos hfl] at hrun
          simp only [Option.some.injEq, Except.ok.injEq, Prod.mk.injEq] at hrun
          obtain ⟨hI, hS, hR⟩ := hrun
          subst hI
          subst hS
          subst hR
          refine ⟨?_, fun p hp => hp, by omega, fun qq itq hq => ⟨itq.on_readylist, by simp [hq]⟩⟩
          by_cases hX : it'.idx = X
          · rw [hX] at hsoc'
            rw [hsoc] at hsoc'
            injection hsoc' with heq
            subst heq
            obtain ⟨w', hw⟩ := process_event_preserves_completed_read _ _ _ _ _ _ _ hpe
            subst hw
            exact ⟨w', by rw [hX]; exact lookupA_updateA_self _ _ _ _ hsoc⟩
          · exact ⟨w, by
              rw [lookupA_updateA_ne _ _ _ _ (fun hc => hX hc.symm)]
              exact hsoc⟩
        | false =>
          rw [if_neg (by simp [hfl])] at hrun
          simp only [Option.some.injEq, Except.ok.injEq, Prod.mk.injEq] at hrun
          obtain ⟨hI, hS, hR⟩ := hrun
          subst hS
          subst hR
          refine ⟨?_, fun p hp => List.mem_append_left _ hp, by simp, ?_⟩
          · by_cases hX : it'.idx = X
            · rw [hX] at hsoc'
              rw [hsoc] at hsoc'
              injection hsoc' with heq
              subst heq
              obtain ⟨w', hw⟩ := process_event_preserves_completed_read _ _ _ _ _ _ _ hpe
              subst hw
              exact ⟨w', by rw [hX]; exact lookupA_updateA_self _ _ _ _ hsoc⟩
            · exact ⟨w, by
                rw [lookupA_updateA_ne _ _ _ _ (fun hc => hX hc.symm)]
                exact hsoc⟩
          · intro qq itq hq
            rw [← hI]
            by_cases hqq : qq = q'
            · subst hqq
              rw [hq] at hl
              injection hl with heq
              subst heq
              exact ⟨true, lookupA_updateA_self _ _ _ _ hq⟩
            · exact ⟨itq.on_readylist, by
                rw [lookupA_updateA_ne _ _ _ _ hqq]
                simp [hq]⟩

theorem drainReady_delivers (list : List (Nat × Nat)) (items : ItemsMap) (socs : SocStore)
    (max : Nat) (items3 : ItemsMap) (recs : List (Event × Nat)) (leftover : List (Nat × Nat))
    (q dta X qd : Nat) (addr : Option Nat) (opn : Bool) (w : Operation SgArray Unit)
    (r : Except PosixError SgArrayByteIter)
    (hrun : drainReady items socs list max = some (items3, recs, leftover))
    (hcap : list.length ≤ max)
    (hmem : (q, dta) ∈ list)
    (hidx : ∀ itq, lookupA items q = some itq → itq.idx = X)
    (hsoc : lookupA socs X = some ⟨qd, addr, opn, .active w (.completed r)⟩) :
    ∃ ev : Event, (ev, dta) ∈ recs ∧ ev.evIn = true := by
  induction list generalizing items max items3 recs leftover with
  | nil => exact absurd hmem (by simp)
  | cons p rest ih =>
    obtain ⟨qh, dh⟩ := p
    have hm0 : ¬max = 0 := by
      simp only [List.length_cons] at hcap
      omega
    unfold drainReady at hrun
    rw [if_neg hm0] at hrun
    cases hl : lookupA items qh with
    | none =>
      simp only [hl] at hrun
      exact Option.noConfusion hrun
    | some ith =>
      simp only [hl] at hrun
      cases hsh : lookupA socs ith.idx with
      | none =>
        simp only [hsh] at hrun
        exact Option.noConfusion hrun
      | some sh =>
        simp only [hsh] at hrun
        cases hd : drainReady (updateA items qh { ith with on_readylist := false }) socs rest
            (max - 1) with
        | none =>
          simp only [hd] at hrun
          exact Option.noConfusion hrun
        | some tr =>
          obtain ⟨items2, recs2, lo2⟩ := tr
          simp only [hd, Option.some.injEq, Prod.mk.injEq] at hrun
          obtain ⟨hI, hR, hL⟩ := hrun
          cases List.mem_cons.mp hmem with
          | inl hhd =>
            obtain ⟨hq, hdta⟩ := Prod.mk.injEq .. ▸ hhd
            subst hq
            subst hdta
            have hiX : ith.idx = X := hidx ith hl
            rw [hiX] at hsh
            rw [hsoc] at hsh
            injection hsh with heq
            subst heq
            refine ⟨Socket.available_events ⟨qd, addr, opn, .active w (.completed r)⟩ Event.all,
              ?_, ?_⟩
            · rw [← hR]
              exact List.mem_cons_self _ _
            · exact available_events_completed_read_evIn _ _ _ _ _ _ rfl
          | inr htl =>
            have hidx2 : ∀ itq, lookupA (updateA items qh { ith with on_readylist := false }) q
                = some itq → itq.idx = X := by
              intro itq hq2
              by_cases hqq : qh = q
              · subst hqq
                rw [lookupA_updateA_self _ _ _ _ hl] at hq2
                injection hq2 with heq2
                rw [← heq2]
                exact hidx ith hl
              · rw [lookupA_updateA_ne _ _ _ _ (fun hc => hqq hc.symm)] at hq2
                exact hidx itq hq2
            have hcap2 : rest.length ≤ max - 1 := by
              simp only [List.length_cons] at hcap
              omega
            obtain ⟨ev, hev, hevIn⟩ := ih _ _ _ _ _ hd hcap2 htl hidx2
            refine ⟨ev, ?_, hevIn⟩
            rw [← hR]
            exact List.mem_cons_of_mem _ hev

theorem pwaitRest_delivers (items : ItemsMap) (socs : SocStore) (ready : List (Nat × Nat))
    (toks : List Nat) (cap : Nat) (epollW : Nat → Except PosixError Nat) (hs : Bool)
    (out : PwaitOut) (q dta X qd : Nat) (addr : Option Nat) (opn : Bool)
    (w : Operation SgArray Unit) (r : Except PosixError SgArrayByteIter)
    (hrun : pwaitRest items socs ready toks cap epollW hs = some out)
    (hepErr : ∀ c e, epollW c = .error e → e = PosixError.TIMEDOUT)
    (hmem : (q, dta) ∈ ready)
    (hcap : ready.length ≤ cap)
    (hidx : ∀ itq, lookupA items q = some itq → itq.idx = X)
    (hsoc : lookupA socs X = some ⟨qd, addr, opn, .active w (.completed r)⟩) :
    ∃ ev : Event, (ev, dta) ∈ out.recs ∧ ev.evIn = true ∧ ∃ m, out.result = Except.ok m := by
  unfold pwaitRest at hrun
  cases hd : drainReady items socs ready cap with
  | none =>
    simp only [hd] at hrun
    exact Option.noConfusion hrun
  | some tr =>
    obtain ⟨items3, recs, lo⟩ := tr
    simp only [hd] at hrun
    obtain ⟨ev, hev, hevIn⟩ :=
      drainReady_delivers _ _ _ _ _ _ _ _ _ _ _ _ _ _ _ hd hcap hmem hidx hsoc
    have hpos : ¬recs.length = 0 := by
      intro hz
      rw [List.length_eq_zero] at hz
      subst hz
      exact absurd hev (by simp)
    cases hE : epollW (cap - recs.length) with
    | ok k =>
      simp only [hE] at hrun
      rw [if_neg (by omega)] at hrun
      cases hrun
      exact ⟨ev, hev, hevIn, recs.length + k, rfl⟩
    | error e =>
      simp only [hE] at hrun
      have he : e = PosixError.TIMEDOUT := hepErr _ _ hE
      rw [if_pos he] at hrun
      simp only [] at hrun
      rw [if_neg (by omega)] at hrun
      cases hrun
      exact ⟨ev, hev, hevIn, recs.length + 0, rfl⟩

/-- C2 amended: if socket `s` (registered with interest IN, cookie
`it.data`) has a completed read operation — the state in which a previous
`pwait` reported IN for `s` and the caller performed no read since —, its
ready-list flag is clear, and the engine and kernel-epoll outcomes of the
next `pwait` call are benign (errors only timeouts), then that `pwait` call,
*provided its event capacity is at least `ready_list.length + items.length +
1`*, again writes a record for `s`'s cookie with IN set and returns `Ok`
with the delivered count.  (The unrestricted claim — "for every capacity" —
is refuted by `pwait_level_trigger_capacity_counterexample`.) -/
theorem pwait_level_trigger_amended
    (d : Dpoll) (socs : SocStore) (cap : Nat) (resp : EngResp)
    (epollW : Nat → Except PosixError Nat) (hs : Bool) (out : PwaitOut)
    (q qd : Nat) (it : Item) (addr : Option Nat) (opn : Bool)
    (w : Operation SgArray Unit) (r : Except PosixError SgArrayByteIter)
    (hit : lookupA d.items q = some it)
    (hflag : it.on_readylist = false)
    (hin : it.evs.evIn = true)
    (hsoc : lookupA socs it.idx = some ⟨qd, addr, opn, .active w (.completed r)⟩)
    (hcap : d.ready_list.length + d.items.length + 1 ≤ cap)
    (hepErr : ∀ c e, epollW c = .error e → e = PosixError.TIMEDOUT)
    (hresp : ∀ e, resp = .errOut e → e = PosixError.TIMEDOUT)
    (hrun : Dpoll.pwait d socs cap resp epollW hs = some out) :
    ∃ ev : Event, (ev, it.data) ∈ out.recs ∧ ev.evIn = true ∧
      ∃ m, out.result = Except.ok m := by
  unfold Dpoll.pwait at hrun
  cases hsw : sweepItems socs d.items with
  | none =>
    simp only [hsw] at hrun
    exact Option.noConfusion hrun
  | some sw =>
    obtain ⟨items1, socs1, toks, nl⟩ := sw
    simp only [hsw] at hrun
    have hmemNl : (q, it.data) ∈ nl :=
      sweepItems_promotes _ _ _ _ _ _ _ _ _ _ _ _ _ hsw hit hflag hin hsoc
    have hsoc1 : lookupA socs1 it.idx = some ⟨qd, addr, opn, .active w (.completed r)⟩ :=
      sweepItems_preserves_completed _ _ _ _ _ _ _ _ _ _ _ _ hsw hsoc
    obtain ⟨b1, hitems1⟩ := sweepItems_items_lookup _ _ _ _ _ _ _ _ hsw hit
    have hnlLen : nl.length ≤ d.items.length := sweepItems_newList_length _ _ _ _ _ _ hsw
    have hmemR1 : (q, it.data) ∈ d.ready_list ++ nl := List.mem_append_right _ hmemNl
    have hlenR1 : (d.ready_list ++ nl).length ≤ d.ready_list.length + d.items.length := by
      simp only [List.length_append]
      omega
    have hidx1 : ∀ itq, lookupA items1 q = some itq → itq.idx = it.idx := by
      intro itq hq2
      rw [hitems1] at hq2
      injection hq2 with heq
      rw [← heq]
    cases resp with
    | errOut e =>
      have he : e = PosixError.TIMEDOUT := hresp e rfl
      subst he
      simp only [Dpoll.wait, if_pos rfl] at hrun
      exact pwaitRest_delivers _ _ _ _ _ _ _ _ _ _ _ _ _ _ _ _ hrun hepErr hmemR1
        (by omega) hidx1 hsoc1
    | comp q' res =>
      cases res with
      | error e =>
        simp only [Dpoll.wait] at hrun
        exact Option.noConfusion hrun
      | ok val =>
        unfold Dpoll.wait at hrun
        cases hl : lookupA items1 q' with
        | none =>
          simp only [hl] at hrun
          exact Option.noConfusion hrun
        | some it' =>
          simp only [hl] at hrun
          cases hsoc' : lookupA socs1 it'.idx with
          | none =>
            simp only [hsoc'] at hrun
            exact Option.noConfusion hrun
          | some soc' =>
            simp only [hsoc'] at hrun
            cases hpe : soc'.process_event val with
            | none =>
              simp only [hpe] at hrun
              exact Option.noConfusion hrun
            | some soc1 =>
              simp only [hpe] at hrun
              cases hp : readyPush items1 (d.ready_list ++ nl) q' with
              | none =>
                simp only [hp] at hrun
                exact Option.noConfusion hrun
              | some pr =>
                obtain ⟨items2, ready2⟩ := pr
                simp only [hp] at hrun
                have hw : Dpoll.wait items1 socs1 (d.ready_list ++ nl) (.comp q' (.ok val)) =
                    some (.ok (items2, updateA socs1 it'.idx soc1, ready2)) := by
                  unfold Dpoll.wait
                  simp only [hl, hsoc', hpe, hp]
                obtain ⟨⟨w2, hsoc2⟩, hmemP, hlenP, hviewP⟩ :=
                  dpollWait_comp_preserves _ _ _ _ _ _ _ _ _ _ _ _ _ _ hw hsoc1
                obtain ⟨b2, hitems2⟩ := hviewP q _ hitems1
                have hidx2 : ∀ itq, lookupA items2 q = some itq → itq.idx = it.idx := by
                  intro itq hq2
                  rw [hitems2] at hq2
                  injection hq2 with heq
                  rw [← heq]
                exact pwaitRest_delivers _ _ _ _ _ _ _ _ _ _ _ _ _ _ _ _ hrun hepErr
                  (hmemP _ hmemR1) (by omega) hidx2 hsoc2

/-- Witness for the amended C2: one registered socket with a completed read,
capacity 2, engine and kernel timing out — the record `(Event.all, 11)` is
delivered and the call returns `Ok`. -/
theorem pwait_level_trigger_amended_witness :
    ∃ ev : Event,
      (ev, (11 : Nat)) ∈ (⟨Except.ok 1, [(Event.all, 11)], 0, false,
        ⟨[(1, ⟨1, 0, Event.IN, 11, false⟩)], [], []⟩,
        [(0, ⟨1, Option.none, true, .active .none
          (.completed (.ok ⟨[[7]], 0, 0⟩))⟩)]⟩ : PwaitOut).recs ∧
      ev.evIn = true ∧
      ∃ m, (⟨Except.ok 1, [(Event.all, 11)], 0, false,
        ⟨[(1, ⟨1, 0, Event.IN, 11, false⟩)], [], []⟩,
        [(0, ⟨1, Option.none, true, .active .none
          (.completed (.ok ⟨[[7]], 0, 0⟩))⟩)]⟩ : PwaitOut).result = Except.ok m :=
  pwait_level_trigger_amended
    ⟨[(1, ⟨1, 0, Event.IN, 11, false⟩)], [], []⟩
    [(0, ⟨1, Option.none, true, .active .none (.completed (.ok ⟨[[7]], 0, 0⟩))⟩)]
    2 (.errOut PosixError.TIMEDOUT) (fun _ => .error PosixError.TIMEDOUT) false
    ⟨Except.ok 1, [(Event.all, 11)], 0, false,
      ⟨[(1, ⟨1, 0, Event.IN, 11, false⟩)], [], []⟩,
      [(0, ⟨1, Option.none, true, .active .none (.completed (.ok ⟨[[7]], 0, 0⟩))⟩)]⟩
    1 1 ⟨1, 0, Event.IN, 11, false⟩ Option.none true Operation.none
    (Except.ok ⟨[[7]], 0, 0⟩)
    rfl rfl rfl rfl (by norm_num)
    (by intro c e h; cases h; rfl)
    (by intro e h; cases h; rfl)
    rfl
